import Mathlib

/-!
Shallow embedding of the query-time resolution engine of the repository:
the `ObjectOrInterface` type-reference abstraction
(`graph/src/data/graphql/object_or_interface.rs`), the default `Resolver`
trait methods (`graphql/src/execution/resolver.rs`), and spec-modelled
parts (selection planner, planning-time validation, interface fan-out)
whose implementation is outside the provided sources. External parser
types (the `graphql_parser` schema and query modules, aliased `s` and `q`
in the Rust sources) are modelled with the components the verified
operations read; Rust panics (`unreachable!`, map-index and `unwrap`
failures) are modelled as `Option.none` in an outer `Option` layer.
-/

namespace s

/-- Schema directive (graphql_parser `s::Directive`); only its name is read
by the verified operations. -/
structure Directive where
  name : String

/-- Schema field definition (graphql_parser `s::Field`); only its name is
read by the verified operations. -/
structure Field where
  name : String

/-- Schema object type (graphql_parser `s::ObjectType`). -/
structure ObjectType where
  name : String
  directives : List Directive
  fields : List Field

/-- Schema interface type (graphql_parser `s::InterfaceType`). -/
structure InterfaceType where
  name : String
  directives : List Directive
  fields : List Field

/-- Schema enum type (graphql_parser `s::EnumType`). -/
structure EnumType where
  name : String

/-- Schema scalar type (graphql_parser `s::ScalarType`). -/
structure ScalarType where
  name : String

/-- Schema union type (graphql_parser `s::UnionType`). -/
structure UnionType where
  name : String

/-- Schema input object type (graphql_parser `s::InputObjectType`). -/
structure InputObjectType where
  name : String

/-- Schema type definition (graphql_parser `s::TypeDefinition`). -/
inductive TypeDefinition where
  | Scalar (t : ScalarType)
  | Object (t : ObjectType)
  | Interface (t : InterfaceType)
  | Union (t : UnionType)
  | Enum (t : EnumType)
  | InputObject (t : InputObjectType)

/-- Name of a schema type definition. -/
def TypeDefinition.name : TypeDefinition → String
  | .Scalar t => t.name
  | .Object t => t.name
  | .Interface t => t.name
  | .Union t => t.name
  | .Enum t => t.name
  | .InputObject t => t.name

end s

namespace q

/-- Query value (graphql_parser `q::Value`). The `Float` case carries the
raw bit pattern of the `f64`, which no verified operation inspects; an
`Object` carries its `BTreeMap` as an association list. -/
inductive Value where
  | Variable (name : String)
  | Int (i : Int)
  | Float (bits : Nat)
  | String (str : String)
  | Boolean (b : Bool)
  | Null
  | Enum (name : String)
  | List (values : List Value)
  | Object (fields : List (String × Value))

/-- Query field (graphql_parser `q::Field`); position, directives and the
selection set are never read by the verified operations and are elided. -/
structure Field where
  «alias» : Option String
  name : String
  arguments : List (String × Value)

end q

/-- Lookup in a `BTreeMap<String, α>` modelled as an association list
(`BTreeMap::get`). -/
def btreeGet {α : Type} (m : List (String × α)) (k : String) : Option α :=
  (m.find? (fun p => p.1 == k)).map (fun p => p.2)

/-- The repository's `ObjectOrInterface`: a tagged view over either an
object type or an interface type. -/
inductive ObjectOrInterface where
  | Object (object : s.ObjectType)
  | Interface (interface : s.InterfaceType)

/-- The repository's `ObjectOrInterface::is_object`. -/
def ObjectOrInterface.is_object : ObjectOrInterface → Bool
  | .Object _ => true
  | .Interface _ => false

/-- The repository's `ObjectOrInterface::is_interface`. -/
def ObjectOrInterface.is_interface : ObjectOrInterface → Bool
  | .Object _ => false
  | .Interface _ => true

/-- The repository's `ObjectOrInterface::name`. -/
def ObjectOrInterface.name : ObjectOrInterface → String
  | .Object object => object.name
  | .Interface interface => interface.name

/-- The repository's `ObjectOrInterface::directives`. -/
def ObjectOrInterface.directives : ObjectOrInterface → List s.Directive
  | .Object object => object.directives
  | .Interface interface => interface.directives

/-- The repository's `ObjectOrInterface::fields`. -/
def ObjectOrInterface.fields : ObjectOrInterface → List s.Field
  | .Object object => object.fields
  | .Interface interface => interface.fields

/-- The repository's `ObjectOrInterface::field`: the declared field with
the given name, if any. -/
def ObjectOrInterface.field (self : ObjectOrInterface) (name : String) :
    Option s.Field :=
  (ObjectOrInterface.fields self).find? (fun field => field.name == name)

/-- Modelled from the spec: the schema with its Interface Index (§3), the
mapping from interface name to implementor object types; the `Schema` type
of `graph::prelude` is outside the provided sources, the sources read it
only through `types_for_interface()`. -/
structure Schema where
  types_for_interface : List (String × List s.ObjectType)

/-- The repository's `ObjectOrInterface::object_types`: for an object, a
singleton list of itself; for an interface, the implementor list recorded
in the schema's interface index (the Rust `.iter().collect()` re-borrow is
the identity here), or `none` when the interface is unknown. -/
def ObjectOrInterface.object_types (self : ObjectOrInterface) (schema : Schema) :
    Option (List s.ObjectType) :=
  match self with
  | .Object object => some [object]
  | .Interface interface => btreeGet schema.types_for_interface interface.name

/-- The repository's `ObjectOrInterface::matches`: true if `self` is an
object with the given name, or an interface whose implementor list in the
supplied index contains that name. The source indexes the
`types_for_interface` map directly, which panics for an absent interface
name; the panic is modelled as `none`, a normal return `b` as `some b`. -/
def ObjectOrInterface.matches (self : ObjectOrInterface) (typename : String)
    (types_for_interface : List (String × List s.ObjectType)) : Option Bool :=
  match self with
  | .Object o => some (o.name == typename)
  | .Interface i =>
      match btreeGet types_for_interface i.name with
      | some object_types => some (object_types.any (fun o => o.name == typename))
      | none => none

/-- Modelled from the spec: the error taxonomy (§7); the
`QueryExecutionError` type of `graph::prelude` is outside the provided
sources. `UnknownField` carries the offending type name and field name. -/
inductive QueryExecutionError where
  | UnknownField (typeName : String) (fieldName : String)
  | NotSupported (description : String)
  | StoreIntegrityError (typeA : String) (typeB : String) (sharedId : String)
  | ResolutionError (message : String)

/-- Modelled from the spec: the schema document supplied by the schema
loader (§6); only type definitions matter to the verified operations. -/
structure Document where
  definitions : List s.TypeDefinition

/-- Modelled from the spec: the schema loader's `get_named_type(name)`
(§6), whose implementation (`DocumentExt`) is outside the provided
sources; returns the type definition carrying the given name. -/
def get_named_type (schema : Document) (name : String) : Option s.TypeDefinition :=
  schema.definitions.find? (fun d => d.name == name)

/-- Default `Resolver::resolve_enum_value`
(`graphql/src/execution/resolver.rs`): pass-through of the already-fetched
raw value, `Null` when absent. -/
def resolve_enum_value (_field : q.Field) (_enum_type : s.EnumType)
    (value : Option q.Value) : Except QueryExecutionError q.Value :=
  Except.ok (value.getD q.Value.Null)

/-- Default `Resolver::resolve_scalar_value`: pass-through of the
already-fetched raw value, `Null` when absent. -/
def resolve_scalar_value (_parent_object_type : s.ObjectType) (_field : q.Field)
    (_scalar_type : s.ScalarType) (value : Option q.Value)
    (_argument_values : List (String × q.Value)) :
    Except QueryExecutionError q.Value :=
  Except.ok (value.getD q.Value.Null)

/-- Default `Resolver::resolve_enum_values`: pass-through of the
already-fetched raw value, `Null` when absent; errors aggregate in a
list. -/
def resolve_enum_values (_field : q.Field) (_enum_type : s.EnumType)
    (value : Option q.Value) : Except (List QueryExecutionError) q.Value :=
  Except.ok (value.getD q.Value.Null)

/-- Default `Resolver::resolve_scalar_values`: pass-through of the
already-fetched raw value, `Null` when absent; errors aggregate in a
list. -/
def resolve_scalar_values (_field : q.Field) (_scalar_type : s.ScalarType)
    (value : Option q.Value) : Except (List QueryExecutionError) q.Value :=
  Except.ok (value.getD q.Value.Null)

/-- Default `Resolver::resolve_abstract_type`: reads the `__typename` tag
of an already-resolved object value and looks the named type up in the
schema. The Rust panics (`unreachable!` when the value is not an object,
when the tag is not a string or when the named type is not an object type;
map-index panic when the tag is missing; `unwrap` panic when the named
type is absent) are modelled as the outer `none`; a normal return
`r : Option s.ObjectType` is `some r`. -/
def resolve_abstract_type (schema : Document) (_abstract_type : s.TypeDefinition)
    (object_value : q.Value) : Option (Option s.ObjectType) :=
  match object_value with
  | q.Value.Object data =>
      match btreeGet data "__typename" with
      | some (q.Value.String name) =>
          match get_named_type schema name with
          | some (s.TypeDefinition.Object object) => some (some object)
          | some _ => none
          | none => none
      | some _ => none
      | none => none
  | _ => none

/-- Modelled from the spec: a Selection Node (§3) — a plain field with
alias, name and nested selection set, an inline fragment with an optional
type condition, or a named-fragment spread; the planner's implementation
is outside the provided sources, only its tests
(`core/tests/interfaces.rs`) are given. Arguments are elided: no verified
claim reads them. -/
inductive Selection where
  | field («alias» : Option String) (name : String) (subsel : List Selection)
  | inlineFragment (typeCond : Option String) (subsel : List Selection)
  | fragmentSpread (fragName : String)

/-- Modelled from the spec: a named fragment definition (§4.3) with its
type condition and body. -/
structure FragmentDef where
  name : String
  cond : String
  subsel : List Selection

/-- Modelled from the spec: one entry of the Resolution Plan (§3) — a
response key, the field name, and the accumulated raw nested selection
set; the recursive union of nested selections happens when the nested
level is itself planned. -/
structure PlannedField where
  key : String
  name : String
  subsel : List Selection

/-- Modelled from the spec: the planner's type-condition check (§4.3 step
3): the condition is absent, or names the concrete type itself, or names
an interface the concrete type implements according to the interface
index. -/
def condMatches (typeCond : Option String) (concrete : String)
    (idx : List (String × List s.ObjectType)) : Bool :=
  match typeCond with
  | none => true
  | some t =>
      t == concrete ||
        (match btreeGet idx t with
         | some impls => impls.any (fun o => o.name == concrete)
         | none => false)

/-- Modelled from the spec: insertion into the ordered, alias-keyed field
map (§4.3 step 2): a new response key is appended in document order, an
existing one has the nested selection set merged instead of duplicating
the field. -/
def insertField (acc : List PlannedField) (key fieldName : String)
    (sub : List Selection) : List PlannedField :=
  match acc with
  | [] => [⟨key, fieldName, sub⟩]
  | pf :: rest =>
      if pf.key == key then ⟨pf.key, pf.name, pf.subsel ++ sub⟩ :: rest
      else pf :: insertField rest key fieldName sub

/-- Modelled from the spec: the Selection Planner (§4.3), producing for
one concrete type the flattened, deduplicated field list. It walks the
selection set in document order, merges plain fields by response key
(alias or name), recurses into fragments whose type condition the
concrete type satisfies and skips the others; a named-fragment spread is
looked up among the document's fragment definitions. `fuel` bounds the
recursion depth (spreads are resolved by name and could otherwise cycle);
the verified properties hold for every fuel. -/
def plan : Nat → List FragmentDef → List (String × List s.ObjectType) → String →
    List Selection → List PlannedField → List PlannedField
  | 0, _, _, _, _, acc => acc
  | _ + 1, _, _, _, [], acc => acc
  | f + 1, frags, idx, ct, Selection.field al n sub :: rest, acc =>
      plan f frags idx ct rest (insertField acc (al.getD n) n sub)
  | f + 1, frags, idx, ct, Selection.inlineFragment tc sub :: rest, acc =>
      plan f frags idx ct rest
        (if condMatches tc ct idx then plan f frags idx ct sub acc else acc)
  | f + 1, frags, idx, ct, Selection.fragmentSpread fname :: rest, acc =>
      plan f frags idx ct rest
        (match frags.find? (fun fd => fd.name == fname) with
         | some fd =>
             if condMatches (some fd.cond) ct idx then
               plan f frags idx ct fd.subsel acc
             else acc
         | none => acc)

/-- Response keys of a resolution plan, in order. -/
def planKeys (p : List PlannedField) : List String :=
  p.map PlannedField.key

/-- Modelled from the spec: the planner's validation (§4.3 step 5, §7) —
each selected field must be declared on its stated type (`__typename` is
always resolvable); a fragment with no type condition is checked against
the enclosing type itself, a type-conditioned fragment or named spread
against its target type looked up in the schema's type environment.
Reports `UnknownField` with the stated type's name and the field name;
it is a pure function of the query and schema, issued before any store
call. `fuel` bounds the recursion depth. -/
def validateSels : Nat → List FragmentDef → List ObjectOrInterface →
    ObjectOrInterface → List Selection → List QueryExecutionError
  | 0, _, _, _, _ => []
  | _ + 1, _, _, _, [] => []
  | f + 1, frags, env, ty, Selection.field _ n _ :: rest =>
      (if n == "__typename" ||
          (ObjectOrInterface.fields ty).any (fun fd => fd.name == n) then []
       else [QueryExecutionError.UnknownField (ObjectOrInterface.name ty) n]) ++
      validateSels f frags env ty rest
  | f + 1, frags, env, ty, Selection.inlineFragment tc sub :: rest =>
      (match tc with
       | none => validateSels f frags env ty sub
       | some t =>
           match env.find? (fun oi => ObjectOrInterface.name oi == t) with
           | some ty2 => validateSels f frags env ty2 sub
           | none => []) ++
      validateSels f frags env ty rest
  | f + 1, frags, env, ty, Selection.fragmentSpread fname :: rest =>
      (match frags.find? (fun fd => fd.name == fname) with
       | some fd =>
           match env.find? (fun oi => ObjectOrInterface.name oi == fd.cond) with
           | some ty2 => validateSels f frags env ty2 fd.subsel
           | none => []
       | none => []) ++
      validateSels f frags env ty rest

/-- Modelled from the spec: a stored entity (§6) — rows live under their
concrete entity type; attributes map attribute names to values. -/
structure StoredEntity where
  entity_type : String
  id : String
  attrs : List (String × q.Value)

/-- Modelled from the spec: the ordering key the store sorts by for an
`orderBy` argument; an integer-valued attribute orders by its value, an
absent or non-integer attribute orders as zero. -/
def entityKey (orderKey : String) (e : StoredEntity) : Int :=
  match btreeGet e.attrs orderKey with
  | some (q.Value.Int i) => i
  | _ => 0

/-- Ordering relation on stored entities induced by an `orderBy` key. -/
def entityLe (orderKey : String) (a b : StoredEntity) : Prop :=
  entityKey orderKey a ≤ entityKey orderKey b

instance (k : String) : DecidableRel (entityLe k) :=
  fun a b => Int.decLe (entityKey k a) (entityKey k b)

instance (k : String) : IsTotal StoredEntity (entityLe k) :=
  ⟨fun a b => Int.le_total (entityKey k a) (entityKey k b)⟩

instance (k : String) : IsTrans StoredEntity (entityLe k) :=
  ⟨fun _ _ _ hab hbc => Int.le_trans hab hbc⟩

/-- Modelled from the spec: the Execution Engine's interface fan-out
(§4.4) for an interface list query with `orderBy` — the entities of every
implementor concrete type of the interface are fetched, and the combined
result set is re-ordered as one logical list sorted by the ordering key,
globally across all implementors. -/
def executeInterfaceList (idx : List (String × List s.ObjectType))
    (iface : String) (store : List StoredEntity) (orderKey : String) :
    List StoredEntity :=
  let impls := ((btreeGet idx iface).getD []).map (fun o => o.name)
  List.insertionSort (entityLe orderKey)
    (store.filter (fun e => impls.contains e.entity_type))

theorem plan_nil (f : Nat) (frags : List FragmentDef)
    (idx : List (String × List s.ObjectType)) (ct : String)
    (acc : List PlannedField) : plan f frags idx ct [] acc = acc := by
  cases f <;> rfl

theorem validateSels_nil (f : Nat) (frags : List FragmentDef)
    (env : List ObjectOrInterface) (ty : ObjectOrInterface) :
    validateSels f frags env ty [] = [] := by
  cases f <;> rfl

/-- C1: `matches` returns `some true` exactly when the receiver is an
object type named by the given concrete type name, or an interface whose
implementor list in the supplied interface index contains an object type
with that name (an interface absent from the index panics instead and so
never returns `true`). -/
theorem matches_true_iff (S : ObjectOrInterface) (t : String)
    (m : List (String × List s.ObjectType)) :
    ObjectOrInterface.matches S t m = some true ↔
      ((∃ o, S = ObjectOrInterface.Object o ∧ o.name = t) ∨
       (∃ i impls, S = ObjectOrInterface.Interface i ∧
          btreeGet m i.name = some impls ∧ ∃ o ∈ impls, o.name = t)) := by
  cases S with
  | Object o => simp [ObjectOrInterface.matches]
  | Interface i =>
      cases h : btreeGet m i.name with
      | none => simp [ObjectOrInterface.matches, h]
      | some impls => simp [ObjectOrInterface.matches, h, List.any_eq_true]

/-- C6: `object_types` returns a singleton of the object itself for an
object; for an interface it returns exactly the interface index entry of
the schema — the implementor list when the interface name is recorded,
`none` when it is absent. -/
theorem object_types_spec (schema : Schema) :
    (∀ o, ObjectOrInterface.object_types (ObjectOrInterface.Object o) schema
        = some [o]) ∧
    (∀ i, ObjectOrInterface.object_types (ObjectOrInterface.Interface i) schema
        = btreeGet schema.types_for_interface i.name) :=
  ⟨fun _ => rfl, fun _ => rfl⟩

/-- C7: for an interface whose name is not a key of the supplied interface
index, `matches` panics (modelled as `none`) for every concrete type name,
rather than returning `false` or an error value. -/
theorem matches_unregistered_interface_panics (i : s.InterfaceType)
    (t : String) (m : List (String × List s.ObjectType))
    (h : btreeGet m i.name = none) :
    ObjectOrInterface.matches (ObjectOrInterface.Interface i) t m = none := by
  simp [ObjectOrInterface.matches, h]

/-- Witness for C7 at a concrete interface and an empty index. -/
theorem matches_unregistered_interface_panics_witness :
    ObjectOrInterface.matches
        (ObjectOrInterface.Interface ⟨"Legged", [], []⟩) "Animal" [] = none :=
  matches_unregistered_interface_panics ⟨"Legged", [], []⟩ "Animal" [] rfl

/-- C8: the default enum/scalar resolver implementations pass an
already-fetched raw value through unchanged, regardless of the field,
type definition and argument values supplied. -/
theorem resolve_defaults_pass_through :
    (∀ fld et v, resolve_enum_value fld et (some v) = Except.ok v) ∧
    (∀ pt fld st v args,
        resolve_scalar_value pt fld st (some v) args = Except.ok v) ∧
    (∀ fld et v, resolve_enum_values fld et (some v) = Except.ok v) ∧
    (∀ fld st v, resolve_scalar_values fld st (some v) = Except.ok v) :=
  ⟨fun _ _ _ => rfl, fun _ _ _ _ _ => rfl, fun _ _ _ => rfl, fun _ _ _ => rfl⟩

/-- C10: the default enum/scalar resolver implementations never return an
error — every call returns `ok`, and an absent raw value yields
`ok Null`, not an error. -/
theorem resolve_defaults_never_error :
    (∀ fld et v, ∃ r, resolve_enum_value fld et v = Except.ok r) ∧
    (∀ pt fld st v args, ∃ r,
        resolve_scalar_value pt fld st v args = Except.ok r) ∧
    (∀ fld et v, ∃ r, resolve_enum_values fld et v = Except.ok r) ∧
    (∀ fld st v, ∃ r, resolve_scalar_values fld st v = Except.ok r) ∧
    (∀ fld et, resolve_enum_value fld et none = Except.ok q.Value.Null) ∧
    (∀ pt fld st args,
        resolve_scalar_value pt fld st none args = Except.ok q.Value.Null) ∧
    (∀ fld et, resolve_enum_values fld et none = Except.ok q.Value.Null) ∧
    (∀ fld st, resolve_scalar_values fld st none = Except.ok q.Value.Null) :=
  ⟨fun _ _ v => ⟨v.getD q.Value.Null, rfl⟩,
   fun _ _ _ v _ => ⟨v.getD q.Value.Null, rfl⟩,
   fun _ _ v => ⟨v.getD q.Value.Null, rfl⟩,
   fun _ _ v => ⟨v.getD q.Value.Null, rfl⟩,
   fun _ _ => rfl, fun _ _ _ _ => rfl, fun _ _ => rfl, fun _ _ => rfl⟩

/-- C9: whenever the default `resolve_abstract_type` returns normally
(does not panic), the returned option is `some` object type; the `none`
case of its declared result type is never produced, so a caller cannot
use it to detect a missing or unknown `__typename` tag. -/
theorem resolve_abstract_type_never_returns_none (schema : Document)
    (aty : s.TypeDefinition) (v : q.Value) :
    resolve_abstract_type schema aty v = none ∨
      ∃ obj, resolve_abstract_type schema aty v = some (some obj) := by
  unfold resolve_abstract_type
  cases v <;> simp
  case Object data =>
    cases hb : btreeGet data "__typename" with
    | none => simp
    | some val =>
        cases val <;> simp
        case String nm =>
          cases hg : get_named_type schema nm with
          | none => simp
          | some td => cases td <;> simp

/-- C4: for an object value whose `__typename` entry is a string naming an
object type present in the schema, the default `resolve_abstract_type`
returns that object type's definition; for every other shape — a
non-object value, a missing or non-string tag, or a named type that is
absent or not an object type — the call panics (modelled as the outer
`none`) rather than returning a user-facing error, so under the stated
precondition no panic branch is reached. -/
theorem resolve_abstract_type_spec (schema : Document)
    (aty : s.TypeDefinition) (v : q.Value) (data : List (String × q.Value))
    (nm : String) (obj : s.ObjectType) :
    (btreeGet data "__typename" = some (q.Value.String nm) →
       get_named_type schema nm = some (s.TypeDefinition.Object obj) →
       resolve_abstract_type schema aty (q.Value.Object data)
         = some (some obj)) ∧
    ((∀ d, v ≠ q.Value.Object d) →
       resolve_abstract_type schema aty v = none) ∧
    ((∀ str, btreeGet data "__typename" ≠ some (q.Value.String str)) →
       resolve_abstract_type schema aty (q.Value.Object data) = none) ∧
    (btreeGet data "__typename" = some (q.Value.String nm) →
       (∀ o, get_named_type schema nm ≠ some (s.TypeDefinition.Object o)) →
       resolve_abstract_type schema aty (q.Value.Object data) = none) := by
  refine ⟨fun h1 h2 => ?_, fun h => ?_, fun h => ?_, fun h1 h2 => ?_⟩
  · simp [resolve_abstract_type, h1, h2]
  · cases v with
    | Object d => exact absurd rfl (h d)
    | Variable nm2 => rfl
    | Int i => rfl
    | Float bits => rfl
    | String str => rfl
    | Boolean b => rfl
    | Null => rfl
    | Enum nm2 => rfl
    | List vs => rfl
  · simp only [resolve_abstract_type]
    cases hb : btreeGet data "__typename" with
    | none => rfl
    | some val =>
        cases val with
        | String str => exact absurd hb (h str)
        | Variable nm2 => rfl
        | Int i => rfl
        | Float bits => rfl
        | Boolean b => rfl
        | Null => rfl
        | Enum nm2 => rfl
        | List vs => rfl
        | Object fs => rfl
  · simp only [resolve_abstract_type, h1]
    cases hg : get_named_type schema nm with
    | none => rfl
    | some td =>
        cases td with
        | Object o => exact absurd hg (h2 o)
        | Scalar t => rfl
        | Interface t => rfl
        | Union t => rfl
        | Enum t => rfl
        | InputObject t => rfl

/-- Witness for C4: a valid `__typename` tag resolves to the named object
type, and a non-object value panics. -/
theorem resolve_abstract_type_spec_witness :
    resolve_abstract_type ⟨[s.TypeDefinition.Object ⟨"Animal", [], []⟩]⟩
        (s.TypeDefinition.Interface ⟨"Legged", [], []⟩)
        (q.Value.Object [("__typename", q.Value.String "Animal")])
      = some (some ⟨"Animal", [], []⟩) ∧
    resolve_abstract_type ⟨[s.TypeDefinition.Object ⟨"Animal", [], []⟩]⟩
        (s.TypeDefinition.Interface ⟨"Legged", [], []⟩) q.Value.Null = none :=
  ⟨(resolve_abstract_type_spec ⟨[s.TypeDefinition.Object ⟨"Animal", [], []⟩]⟩
      (s.TypeDefinition.Interface ⟨"Legged", [], []⟩) q.Value.Null
      [("__typename", q.Value.String "Animal")] "Animal"
      ⟨"Animal", [], []⟩).1 rfl rfl,
   (resolve_abstract_type_spec ⟨[s.TypeDefinition.Object ⟨"Animal", [], []⟩]⟩
      (s.TypeDefinition.Interface ⟨"Legged", [], []⟩) q.Value.Null
      [("__typename", q.Value.String "Animal")] "Animal"
      ⟨"Animal", [], []⟩).2.1 (fun _ h => q.Value.noConfusion h)⟩

theorem insertField_keys (p : List PlannedField) (k fn : String)
    (sub : List Selection) :
    planKeys (insertField p k fn sub)
      = if k ∈ planKeys p then planKeys p else planKeys p ++ [k] := by
  induction p with
  | nil => simp [insertField, planKeys]
  | cons pf rest ih =>
      by_cases h : pf.key = k
      · subst h
        simp [insertField, planKeys]
      · have hbeq : (pf.key == k) = false := by simp [h]
        have hne : k ≠ pf.key := fun hh => h hh.symm
        simp only [insertField, hbeq, Bool.false_eq_true, if_false, planKeys,
          List.map_cons, List.mem_cons, hne, false_or]
        simp only [planKeys] at ih
        rw [ih]
        by_cases hm : k ∈ List.map PlannedField.key rest <;> simp [hm]

theorem insertField_keys_nodup (p : List PlannedField) (k fn : String)
    (sub : List Selection) (h : (planKeys p).Nodup) :
    (planKeys (insertField p k fn sub)).Nodup := by
  rw [insertField_keys]
  by_cases hm : k ∈ planKeys p
  · simpa [hm] using h
  · simp [hm, List.nodup_append, h]

theorem plan_keys_nodup (f : Nat) : ∀ (frags : List FragmentDef)
    (idx : List (String × List s.ObjectType)) (ct : String)
    (sels : List Selection) (acc : List PlannedField),
    (planKeys acc).Nodup → (planKeys (plan f frags idx ct sels acc)).Nodup := by
  induction f with
  | zero => intro _ _ _ _ acc h; simpa [plan] using h
  | succ f ih =>
      intro frags idx ct sels acc h
      cases sels with
      | nil => simpa [plan] using h
      | cons hd rest =>
          cases hd with
          | field al n sub =>
              simp only [plan]
              exact ih _ _ _ _ _ (insertField_keys_nodup _ _ _ _ h)
          | inlineFragment tc sub =>
              simp only [plan]
              apply ih
              split
              · exact ih _ _ _ _ _ h
              · exact h
          | fragmentSpread fname =>
              simp only [plan]
              apply ih
              cases hf : frags.find? (fun fd => fd.name == fname) with
              | none => exact h
              | some fd =>
                  show (planKeys (if condMatches (some fd.cond) ct idx = true
                      then plan f frags idx ct fd.subsel acc else acc)).Nodup
                  by_cases hc : condMatches (some fd.cond) ct idx = true
                  · rw [if_pos hc]
                    exact ih _ _ _ _ _ h
                  · rw [if_neg hc]
                    exact h

/-- C2: the planner never duplicates a response key — for every query,
fragment set and concrete type the plan's response keys are nodup — and a
field requested both through a named-fragment spread whose condition the
concrete type satisfies and directly under the same response key is
planned exactly once, its nested selection being the merge (union) of the
nested sub-selections of both occurrences, none dropped. -/
theorem plan_merges_fragment_and_direct (f fuel : Nat)
    (frags : List FragmentDef) (idx : List (String × List s.ObjectType))
    (tc ct n : String) (A B sels : List Selection)
    (h : condMatches (some tc) ct idx = true) :
    (planKeys (plan fuel frags idx ct sels [])).Nodup ∧
    plan (Nat.succ (Nat.succ f)) [⟨"Frag", tc, [Selection.field none n A]⟩]
        idx ct [Selection.fragmentSpread "Frag", Selection.field none n B] []
      = [⟨n, n, A ++ B⟩] := by
  constructor
  · exact plan_keys_nodup fuel frags idx ct sels [] (by simp [planKeys])
  · simp [plan, h, plan_nil, insertField]

/-- Witness for C2: a `Parent.children` field selected through fragment
`Frag` (condition `Legged`, satisfied by concrete type `Animal`) and
directly, merged into one planned field with both nested selections. -/
theorem plan_merges_fragment_and_direct_witness :
    (planKeys (plan 3 [] [("Legged", [⟨"Animal", [], []⟩])] "Animal"
        [Selection.field none "legs" []] [])).Nodup ∧
    plan 2 [⟨"Frag", "Legged", [Selection.field none "children"
          [Selection.field none "foo" []]]⟩]
        [("Legged", [⟨"Animal", [], []⟩])] "Animal"
        [Selection.fragmentSpread "Frag",
         Selection.field none "children" [Selection.field none "id" []]] []
      = [⟨"children", "children",
          [Selection.field none "foo" []] ++ [Selection.field none "id" []]⟩] :=
  plan_merges_fragment_and_direct 0 3 [] [("Legged", [⟨"Animal", [], []⟩])]
    "Legged" "Animal" "children" [Selection.field none "foo" []]
    [Selection.field none "id" []] [Selection.field none "legs" []] rfl

/-- C3: an interface list query with `orderBy` returns the combined
entities of all implementor concrete types as one globally sorted list: a
permutation of the union of every implementor's stored entities, sorted
by the ordering key across the whole list rather than per concrete
type. -/
theorem executeInterfaceList_globally_sorted
    (idx : List (String × List s.ObjectType)) (iface : String)
    (store : List StoredEntity) (k : String) :
    List.Sorted (entityLe k) (executeInterfaceList idx iface store k) ∧
    List.Perm (executeInterfaceList idx iface store k)
      (store.filter (fun e =>
        ((((btreeGet idx iface).getD []).map (fun o => o.name)).contains
          e.entity_type))) := by
  constructor
  · exact List.sorted_insertionSort (entityLe k) _
  · exact List.perm_insertionSort (entityLe k) _

/-- C5: a field that is not declared on an interface, selected through
the interface either directly or inside a fragment body checked against
the interface, is reported by planning-time validation — a pure function
of the query and schema, before any store access — as `UnknownField`
carrying the interface's own type name and the field name, not the name
of any implementor. -/
theorem validate_unknown_field_on_interface (f : Nat)
    (frags : List FragmentDef) (env : List ObjectOrInterface)
    (i : s.InterfaceType) (al : Option String) (n : String)
    (sub : List Selection)
    (h1 : i.fields.any (fun fd => fd.name == n) = false)
    (h2 : (n == "__typename") = false) :
    validateSels (Nat.succ f) frags env (ObjectOrInterface.Interface i)
        [Selection.field al n sub]
      = [QueryExecutionError.UnknownField i.name n] ∧
    validateSels (Nat.succ (Nat.succ f)) frags env
        (ObjectOrInterface.Interface i)
        [Selection.inlineFragment none [Selection.field al n sub]]
      = [QueryExecutionError.UnknownField i.name n] := by
  constructor
  · simp [validateSels, ObjectOrInterface.fields, ObjectOrInterface.name,
      h1, h2, validateSels_nil]
  · simp [validateSels, ObjectOrInterface.fields, ObjectOrInterface.name,
      h1, h2, validateSels_nil]

/-- Witness for C5: selecting `parent` on interface `Legged` (which only
declares `legs`), directly and inside a condition-less fragment, yields
`UnknownField` with the interface's name. -/
theorem validate_unknown_field_on_interface_witness :
    validateSels 1 [] [] (ObjectOrInterface.Interface ⟨"Legged", [], [⟨"legs"⟩]⟩)
        [Selection.field none "parent" []]
      = [QueryExecutionError.UnknownField "Legged" "parent"] ∧
    validateSels 2 [] [] (ObjectOrInterface.Interface ⟨"Legged", [], [⟨"legs"⟩]⟩)
        [Selection.inlineFragment none [Selection.field none "parent" []]]
      = [QueryExecutionError.UnknownField "Legged" "parent"] :=
  validate_unknown_field_on_interface 0 [] [] ⟨"Legged", [], [⟨"legs"⟩]⟩ none
    "parent" [] rfl rfl
